import Mathlib

/-!
# Verification of `src/index.js`

A shallow embedding of the fetch / validate / classify / persist pipeline of
`src/index.js`, followed by theorems about it.

* JavaScript arrays of strings are `List String`; `Array.prototype.includes`
  on strings is list membership, `Array.prototype.filter` is `List.filter`.
* A computation that may throw returns `Except String _`.
* Text is handled as `List Char`.  The regular expression of the cleaning
  step only mentions ASCII characters, so matching on code points and on
  UTF-16 code units agree on well-formed text.
-/

namespace Index

/-! ## Classifier (`categorizeCompanies`, lines 156-169) -/

/-- The object returned by `categorizeCompanies`. -/
structure Categorized where
  both : List String
  onlyGreenhouse : List String
  onlyLever : List String
  deriving DecidableEq, Repr

/-- Lines 156-169.  `both` filters the longer list against the shorter one
(the first list only when it is strictly longer). -/
def categorizeCompanies (greenhouseCompanies leverCompanies : List String) : Categorized :=
  let companiesExistOnBothPlatforms :=
    if greenhouseCompanies.length > leverCompanies.length
    then greenhouseCompanies.filter (fun company => decide (company ∈ leverCompanies))
    else leverCompanies.filter (fun company => decide (company ∈ greenhouseCompanies))
  let companiesExistOnOnlyGreenhouse :=
    greenhouseCompanies.filter (fun company => !decide (company ∈ leverCompanies))
  let companiesExistOnOnlyLever :=
    leverCompanies.filter (fun company => !decide (company ∈ greenhouseCompanies))
  { both := companiesExistOnBothPlatforms
    onlyGreenhouse := companiesExistOnOnlyGreenhouse
    onlyLever := companiesExistOnOnlyLever }

/-- Reference from the specification's words, "A minus B": every name that
occurs in `B` is removed from `A`, one name of `B` at a time. -/
def minusRef (A B : List String) : List String :=
  B.foldl (fun acc b => acc.filter (fun a => decide (a ≠ b))) A

/-! ## Platform validators (lines 110-125 and 138-154) -/

/-- Line 115: the URL probed for a name on the first platform. -/
def greenhouseUrl (companyName : String) : String :=
  "https://boards-api.greenhouse.io/v1/boards/" ++ companyName ++ "/jobs"

/-- Line 144: the URL probed for a name on the second platform. -/
def leverUrl (companyName : String) : String :=
  "https://api.lever.co/v0/postings/" ++ companyName ++ "?mode=json"

/-- The order in which the requests started by `companies.map(async ...)`
settle.  All requests are in flight at once; a schedule entry `k` picks the
request at position `k % pending.length` among those still pending.  When the
schedule runs out the remaining requests settle in input order. -/
def completionOrder : List Nat → List String → List String
  | [], pending => pending
  | _ :: _, [] => []
  | k :: ks, p :: ps =>
    (p :: ps).getD (k % (ps.length + 1)) p
      :: completionOrder ks ((p :: ps).eraseIdx (k % (ps.length + 1)))

/-- Lines 114-121: the body of one callback once its request has settled.
A successful `axios.get` pushes the name; the `catch` block ignores a
failure. -/
def greenhouseCallback (axiosGet : String → Except String Unit)
    (companiesList : List String) (companyName : String) : List String :=
  match axiosGet (greenhouseUrl companyName) with
  | .ok _ => companiesList ++ [companyName]
  | .error _ => companiesList

/-- Lines 142-150: the body of one callback once its request has settled. -/
def leverCallback (axiosGet : String → Except String Unit)
    (companiesList : List String) (companyName : String) : List String :=
  match axiosGet (leverUrl companyName) with
  | .ok _ => companiesList ++ [companyName]
  | .error _ => companiesList

/-- Lines 110-125.  No callback rejects, so `Promise.all` fulfils and the
function returns `companiesList`, filled in completion order. -/
def getValidGreenhouseCompanies (axiosGet : String → Except String Unit)
    (schedule : List Nat) (companies : List String) : Except String (List String) :=
  .ok ((completionOrder schedule companies).foldl (greenhouseCallback axiosGet) [])

/-- Lines 138-154 (the value returned; the console output is
`checkCompaniesInLevelOutput`). -/
def checkCompaniesInLevel (axiosGet : String → Except String Unit)
    (schedule : List Nat) (companies : List String) : Except String (List String) :=
  .ok ((completionOrder schedule companies).foldl (leverCallback axiosGet) [])

/-- Whether the probe of a URL succeeds. -/
def succeeds (axiosGet : String → Except String Unit) (url : String) : Bool :=
  match axiosGet url with
  | .ok _ => true
  | .error _ => false

/-- A network in which the boards of `realco` exist and nothing else does. -/
def onlyRealco (url : String) : Except String Unit :=
  if url = greenhouseUrl "realco" ∨ url = leverUrl "realco" then .ok ()
  else .error "Request failed with status code 404"

/-! ## Cleaning step of the second candidate fetcher (line 106) -/

/-- The characters removed by `String.prototype.trim`: ECMAScript WhiteSpace
and LineTerminator. -/
def isJsWhitespace (c : Char) : Bool :=
  decide (c.toNat ∈ [0x9, 0xA, 0xB, 0xC, 0xD, 0x20, 0xA0, 0x1680, 0x2028, 0x2029,
    0x202F, 0x205F, 0x3000, 0xFEFF]) || (decide (0x2000 ≤ c.toNat) && decide (c.toNat ≤ 0x200A))

/-- `String.prototype.trim` on a list of characters. -/
def jsTrimChars (l : List Char) : List Char :=
  (l.dropWhile isJsWhitespace).rdropWhile isJsWhitespace

/-- `String.prototype.trim`. -/
def jsTrim (s : String) : String := String.mk (jsTrimChars s.toList)

/-- The three characters of a bare fence marker. -/
def fence : List Char := "```".toList

/-- The eight characters of the first alternative of the pattern. -/
def fenceJson : List Char := "```json\n".toList

/-- The global replacement `.replace(/```json\n|```/g, '')`: scan from the
left; at each position try the first alternative, then the second; a match is
deleted and the scan resumes after it; otherwise the character is kept.  The
first argument counts the characters of the current match still to delete. -/
def removeMarkers : Nat → List Char → List Char
  | _, [] => []
  | skip + 1, _ :: rest => removeMarkers skip rest
  | 0, c :: rest =>
    if fenceJson <+: c :: rest then removeMarkers 7 rest
    else if fence <+: c :: rest then removeMarkers 2 rest
    else c :: removeMarkers 0 rest

/-- Line 106: `response.text.replace(/```json\n|```/g, '').trim()`. -/
def cleanText (text : String) : String :=
  String.mk (jsTrimChars (removeMarkers 0 text.toList))

/-- A payload wrapped in a fenced block with language tag `tag`. -/
def wrapFenced (tag payload : String) : String :=
  "```" ++ tag ++ "\n" ++ payload ++ "\n```"

/-! ## Candidate fetchers (lines 74-108) -/

/-- One element of the array a candidate fetcher parses. -/
structure Company where
  company_name : String
  registered_name : String
  deriving DecidableEq, Repr

/-- A line written by `console.log` or `console.error`; the arguments are
joined by one blank. -/
inductive LogEntry where
  | log (text : String)
  | error (text : String)
  deriving DecidableEq, Repr

/-- The collaborators of the process: its environment, the two generative
backends, `JSON.parse` restricted to the expected shape, the HTTP client with
the completion order of each batch, and the file system. -/
structure World where
  env : String → Option String
  /-- The outcome of `genai.models.generateContent` for the client built with
  the given key: it throws, or gives `response.text`, which may be undefined. -/
  generateContent : Option String → Except String (Option String)
  /-- The outcome of `ollama.chat`: it throws, or gives
  `response.message.content`. -/
  ollamaChat : Except String String
  jsonParse : String → Except String (List Company)
  axiosGet : String → Except String Unit
  greenhouseSchedule : List Nat
  leverSchedule : List Nat
  /-- Whether `fs.writeFileSync path data` throws. -/
  fsWrite : String → String → Except String Unit

/-- Lines 74-91. -/
def fetchCompaniesUsingOllama (w : World) : Except String (List Company) :=
  match w.ollamaChat with
  | .error e => .error e
  | .ok content => w.jsonParse content

/-- Lines 96-108.  The key is read here, with optional chaining, and handed
to the client; an undefined `response.text` makes `.replace` throw. -/
def fetchCompaniesUsingGoogleGenAI (w : World) : Except String (List Company) :=
  match w.generateContent ((w.env "GOOGLE_API_KEY").map jsTrim) with
  | .error e => .error e
  | .ok none => .error "TypeError: Cannot read properties of undefined"
  | .ok (some text) => w.jsonParse (cleanText text)

/-! ## Cycle (`main`, lines 171-202) and scheduler (lines 207-214) -/

/-- The mutable state a cycle acts on: the two module-level counters, the
files of the working directory and the console. -/
structure State where
  totalFetchedCount : Nat
  count : Nat
  files : String → Option String
  logs : List LogEntry

/-- A computation that may throw and may act on the state; the state reached
is kept when it throws. -/
abbrev Eff (α : Type) : Type := State → Except String α × State

/-- The stages `main` calls. -/
structure Stages where
  fetchCompaniesUsingGoogleGenAI : Eff (List Company)
  fetchCompaniesUsingOllama : Eff (List Company)
  getValidGreenhouseCompanies : List String → Eff (List String)
  checkCompaniesInLevel : List String → Eff (List String)
  writeFileSync : String → String → Eff Unit

/-- The result of `console.log(...args)`. -/
def consoleLog (args : List String) (s : State) : State :=
  { s with logs := s.logs ++ [LogEntry.log (" ".intercalate args)] }

/-- The result of `console.error(...args)`. -/
def consoleError (args : List String) (s : State) : State :=
  { s with logs := s.logs ++ [LogEntry.error (" ".intercalate args)] }

/-- The array `[...new Set(xs)]`: the first occurrence of each name, in
order. -/
def setFromArray (xs : List String) : List String :=
  xs.foldl (fun acc x => if x ∈ acc then acc else acc ++ [x]) []

/-- `names.join('\n')`. -/
def joinLines (names : List String) : String := "\n".intercalate names

/-- Lines 173-197, the body of the `try` block. -/
def mainBody (st : Stages) : Eff Unit := fun s =>
  match st.fetchCompaniesUsingGoogleGenAI s with
  | (.error e, s) => (.error e, s)
  | (.ok companiesUsingGoogleGenAI, s) =>
  match st.fetchCompaniesUsingOllama s with
  | (.error e, s) => (.error e, s)
  | (.ok companiesUsingOllama, s) =>
  let s := consoleLog ["companies length using google gen ai ----> ",
    toString companiesUsingGoogleGenAI.length] s
  let s := consoleLog ["companies length using ollama ----> ",
    toString companiesUsingOllama.length] s
  let companies := companiesUsingGoogleGenAI ++ companiesUsingOllama
  let s := { s with totalFetchedCount := s.totalFetchedCount + companies.length }
  match st.getValidGreenhouseCompanies (companies.map (fun company => company.company_name)) s with
  | (.error e, s) => (.error e, s)
  | (.ok validateGreenhouseCompanies, s) =>
  match st.checkCompaniesInLevel (companies.map (fun company => company.company_name)) s with
  | (.error e, s) => (.error e, s)
  | (.ok validateLeverCompanies, s) =>
  let uniqueGreenhouseCompanies := setFromArray validateGreenhouseCompanies
  let uniqueLeverCompanies := setFromArray validateLeverCompanies
  let categorizedCompanies := categorizeCompanies validateGreenhouseCompanies validateLeverCompanies
  let s := consoleLog ["companies exist on both platforms ----> ",
    toString categorizedCompanies.both.length] s
  let s := consoleLog ["companies exist on only greenhouse ----> ",
    toString categorizedCompanies.onlyGreenhouse.length] s
  let s := consoleLog ["companies exist on only lever ----> ",
    toString categorizedCompanies.onlyLever.length] s
  match st.writeFileSync "greenhouse.txt" (joinLines uniqueGreenhouseCompanies) s with
  | (.error e, s) => (.error e, s)
  | (.ok _, s) =>
  match st.writeFileSync "lever.txt" (joinLines uniqueLeverCompanies) s with
  | (.error e, s) => (.error e, s)
  | (.ok _, s) =>
  st.writeFileSync "both.txt" (joinLines categorizedCompanies.both) s

/-- Lines 171-202: the `try` block and its `catch`. -/
def main (st : Stages) : Eff Unit := fun s =>
  match mainBody st s with
  | (.ok _, s) => (.ok (), s)
  | (.error e, s) => (.ok (), consoleError ["Error inside main file", e] s)

/-- Lines 209-214, the scheduler callback. -/
def tick (st : Stages) : Eff Unit := fun s =>
  let s := consoleLog ["fetching times ", toString s.count, " total fetched count",
    toString s.totalFetchedCount] s
  let s := { s with count := s.count + 1 }
  match main st s with
  | (.error e, s) => (.error e, s)
  | (.ok _, s) =>
    (.ok (), consoleLog ["-----------------------------------------------"] s)

/-- Lift a computation that does not touch the state. -/
def liftExcept {α : Type} (r : Except String α) : Eff α := fun s => (r, s)

/-- Line 143: one console line per name, written when the callbacks start,
in input order. -/
def checkCompaniesInLevelOutput (companies : List String) (s : State) : State :=
  companies.foldl (fun s companyName => consoleLog ["checking company ----> ", companyName] s) s

/-- `fs.writeFileSync path data`: the file is replaced by `data` unless the
write throws. -/
def writeFileSync (w : World) (path data : String) : Eff Unit := fun s =>
  match w.fsWrite path data with
  | .error e => (.error e, s)
  | .ok _ => (.ok (), { s with files := fun p => if p = path then some data else s.files p })

/-- The stages as the module defines them, in a given world. -/
def stagesOf (w : World) : Stages where
  fetchCompaniesUsingGoogleGenAI := liftExcept (fetchCompaniesUsingGoogleGenAI w)
  fetchCompaniesUsingOllama := liftExcept (fetchCompaniesUsingOllama w)
  getValidGreenhouseCompanies := fun companies =>
    liftExcept (getValidGreenhouseCompanies w.axiosGet w.greenhouseSchedule companies)
  checkCompaniesInLevel := fun companies s =>
    (checkCompaniesInLevel w.axiosGet w.leverSchedule companies,
      checkCompaniesInLevelOutput companies s)
  writeFileSync := writeFileSync w

/-! ## Startup (lines 8-12 and 207-214) -/

/-- Module evaluation.  Lines 9-12 throw when `OLLAMA_API_KEY` is undefined
or empty after trimming; nothing else is checked, and the scheduler is then
registered with the counters at their initial values. -/
def startup (env : String → Option String) (files : String → Option String) :
    Except String State :=
  match (env "OLLAMA_API_KEY").map jsTrim with
  | none => .error "OLLAMA_API_KEY is not set in environment variables"
  | some apiKey =>
    if apiKey = "" then .error "OLLAMA_API_KEY is not set in environment variables"
    else .ok { totalFetchedCount := 0, count := 1, files := files, logs := [] }

/-- Whether module evaluation throws. -/
def startupFails (env : String → Option String) : Bool :=
  match startup env (fun _ => none) with
  | .ok _ => false
  | .error _ => true

/-! ## Concrete inputs used in the evaluations below -/

/-- An environment that sets `OLLAMA_API_KEY` and nothing else. -/
def envOnlyOllama (name : String) : Option String :=
  if name = "OLLAMA_API_KEY" then some "ollama-secret" else none

/-- The state of a process that has just started in an empty directory. -/
def freshState : State :=
  { totalFetchedCount := 0, count := 1, files := fun _ => none, logs := [] }

/-- The candidate record of the company `acme`. -/
def acme : Company := { company_name := "acme", registered_name := "acme" }

/-- The response text of a backend that proposes the single company `acme`. -/
def acmeResponse : String :=
  "[\x7b\"company_name\":\"acme\",\"registered_name\":\"acme\"\x7d]"

/-- A world in which the first backend proposes `acme`, the second proposes
nothing, every probe succeeds and every write succeeds. -/
def acmeWorld : World where
  env := fun _ => some "secret"
  generateContent := fun _ => .ok (some acmeResponse)
  ollamaChat := .ok "[]"
  jsonParse := fun text =>
    if text = acmeResponse then .ok [acme]
    else if text = "[]" then .ok []
    else .error "SyntaxError: Unexpected token"
  axiosGet := fun _ => .ok ()
  greenhouseSchedule := []
  leverSchedule := []
  fsWrite := fun _ _ => .ok ()

/-- The world `acmeWorld` with both backends proposing `acme`. -/
def acmeTwiceWorld : World :=
  { acmeWorld with ollamaChat := .ok acmeResponse }

/-- The world `acmeWorld` with the first backend unreachable. -/
def backendDownWorld : World :=
  { acmeWorld with generateContent := fun _ => .error "fetch failed" }

/-! ## Lemmas on the classifier -/

theorem mem_both_iff (A B : List String) (x : String) :
    x ∈ (categorizeCompanies A B).both ↔ x ∈ A ∧ x ∈ B := by
  unfold categorizeCompanies
  by_cases h : A.length > B.length
  · simp [h]
  · simp [h, and_comm]

theorem mem_onlyGreenhouse_iff (A B : List String) (x : String) :
    x ∈ (categorizeCompanies A B).onlyGreenhouse ↔ x ∈ A ∧ x ∉ B := by
  simp [categorizeCompanies]

theorem mem_onlyLever_iff (A B : List String) (x : String) :
    x ∈ (categorizeCompanies A B).onlyLever ↔ x ∈ B ∧ x ∉ A := by
  simp [categorizeCompanies]

theorem minusRef_eq_filter (A B : List String) :
    minusRef A B = A.filter (fun a => !decide (a ∈ B)) := by
  unfold minusRef
  induction B generalizing A with
  | nil => simp
  | cons b bs ih =>
    rw [List.foldl_cons, ih, List.filter_filter]
    congr 1
    funext a
    by_cases h1 : a = b <;> by_cases h2 : a ∈ bs <;> simp [h1, h2]

/-! ## Theorems on the classifier -/

/-- C1: the three buckets of `categorizeCompanies A B` cover exactly the
inputs: a name occurs in `both`, `onlyGreenhouse` or `onlyLever` if and only
if it occurs in `A` or in `B`. -/
theorem categorizeCompanies_cover (A B : List String) (x : String) :
    (x ∈ (categorizeCompanies A B).both ∨ x ∈ (categorizeCompanies A B).onlyGreenhouse
        ∨ x ∈ (categorizeCompanies A B).onlyLever) ↔ (x ∈ A ∨ x ∈ B) := by
  rw [mem_both_iff, mem_onlyGreenhouse_iff, mem_onlyLever_iff]
  by_cases hA : x ∈ A <;> by_cases hB : x ∈ B <;> simp [hA, hB]

/-- C2: the three buckets of `categorizeCompanies A B` are pairwise disjoint,
and when `A` and `B` share no name the `both` bucket is the empty list (and
`onlyGreenhouse`, `onlyLever` share no name). -/
theorem categorizeCompanies_exclusive (A B : List String) :
    (∀ x, ¬ (x ∈ (categorizeCompanies A B).both ∧ x ∈ (categorizeCompanies A B).onlyGreenhouse)) ∧
    (∀ x, ¬ (x ∈ (categorizeCompanies A B).both ∧ x ∈ (categorizeCompanies A B).onlyLever)) ∧
    (∀ x, ¬ (x ∈ (categorizeCompanies A B).onlyGreenhouse
              ∧ x ∈ (categorizeCompanies A B).onlyLever)) ∧
    ((∀ x, ¬ (x ∈ A ∧ x ∈ B)) → (categorizeCompanies A B).both = []) := by
  refine ⟨?_, ?_, ?_, ?_⟩
  · intro x
    rw [mem_both_iff, mem_onlyGreenhouse_iff]
    tauto
  · intro x
    rw [mem_both_iff, mem_onlyLever_iff]
    tauto
  · intro x
    rw [mem_onlyGreenhouse_iff, mem_onlyLever_iff]
    tauto
  · intro hdisj
    apply List.eq_nil_iff_forall_not_mem.mpr
    intro x hx
    exact hdisj x ((mem_both_iff A B x).mp hx)

theorem categorizeCompanies_exclusive_witness :
    (∀ x : String, ¬ (x ∈ ["x"] ∧ x ∈ ["z"])) ∧ (categorizeCompanies ["x"] ["z"]).both = [] :=
  have hd : ∀ x : String, ¬ (x ∈ ["x"] ∧ x ∈ ["z"]) := by
    intro x h
    simp only [List.mem_singleton] at h
    exact absurd (h.1.symm.trans h.2) (by decide)
  ⟨hd, (categorizeCompanies_exclusive ["x"] ["z"]).2.2.2 hd⟩

/-- C3: `categorizeCompanies` matches the set-theoretic reference whichever
list is longer: membership in `both` is membership in `A` and in `B`,
`onlyGreenhouse` is `A` minus `B`, `onlyLever` is `B` minus `A`; and the
worked example `["x","y"]`, `["y","z"]` gives `["y"]`, `["x"]`, `["z"]`. -/
theorem categorizeCompanies_reference (A B : List String) :
    (∀ x, x ∈ (categorizeCompanies A B).both ↔ x ∈ A ∧ x ∈ B) ∧
    (categorizeCompanies A B).onlyGreenhouse = minusRef A B ∧
    (categorizeCompanies A B).onlyLever = minusRef B A ∧
    categorizeCompanies ["x", "y"] ["y", "z"]
      = { both := ["y"], onlyGreenhouse := ["x"], onlyLever := ["z"] } := by
  refine ⟨mem_both_iff A B, ?_, ?_, by decide⟩
  · rw [minusRef_eq_filter]; rfl
  · rw [minusRef_eq_filter]; rfl

/-- C4 (as stated, refuted): with a repeated name in the input a bucket of
`categorizeCompanies` repeats it; and a cycle in which both backends propose
`acme` classifies the validators' outputs as they are, repetitions included,
and writes `acme` twice to `both.txt`. -/
theorem categorizeCompanies_repeats :
    (categorizeCompanies ["x", "x"] []).onlyGreenhouse = ["x", "x"] ∧
    ¬ (categorizeCompanies ["x", "x"] []).onlyGreenhouse.Nodup ∧
    ¬ (categorizeCompanies ["x", "x"] ["x"]).both.Nodup ∧
    (main (stagesOf acmeTwiceWorld) freshState).2.files "both.txt" = some "acme\nacme" := by
  decide

/-- C4 (amended): when neither `A` nor `B` repeats a name, every bucket of
`categorizeCompanies A B` contains every name at most once. -/
theorem categorizeCompanies_nodup (A B : List String) (hA : A.Nodup) (hB : B.Nodup) :
    (categorizeCompanies A B).both.Nodup ∧ (categorizeCompanies A B).onlyGreenhouse.Nodup ∧
    (categorizeCompanies A B).onlyLever.Nodup := by
  refine ⟨?_, hA.filter _, hB.filter _⟩
  unfold categorizeCompanies
  by_cases h : A.length > B.length
  · simpa [h] using hA.filter _
  · simpa [h] using hB.filter _

theorem categorizeCompanies_nodup_witness :
    (["x", "y"] : List String).Nodup ∧ (["y", "z"] : List String).Nodup ∧
    (categorizeCompanies ["x", "y"] ["y", "z"]).both.Nodup ∧
    (categorizeCompanies ["x", "y"] ["y", "z"]).onlyGreenhouse.Nodup ∧
    (categorizeCompanies ["x", "y"] ["y", "z"]).onlyLever.Nodup :=
  ⟨by decide, by decide, categorizeCompanies_nodup ["x", "y"] ["y", "z"] (by decide) (by decide)⟩

/-! ## Lemmas on the validators -/

theorem getD_cons_eraseIdx_perm (l : List String) (i : Nat) (d : String) (h : i < l.length) :
    (l.getD i d :: l.eraseIdx i).Perm l := by
  induction l generalizing i with
  | nil => simp at h
  | cons a as ih =>
    cases i with
    | zero => simp
    | succ j =>
      have hj : j < as.length := by simpa using h
      have h1 : (a :: as).getD (j + 1) d = as.getD j d := by simp [List.getD]
      rw [h1, List.eraseIdx_cons_succ]
      exact (List.Perm.swap a (as.getD j d) (as.eraseIdx j)).trans ((ih j hj).cons a)

theorem completionOrder_perm (schedule : List Nat) (companies : List String) :
    (completionOrder schedule companies).Perm companies := by
  induction schedule generalizing companies with
  | nil => simp [completionOrder]
  | cons k ks ih =>
    cases companies with
    | nil => simp [completionOrder]
    | cons p ps =>
      have hlt : k % (ps.length + 1) < (p :: ps).length := by
        simpa using Nat.mod_lt k (Nat.succ_pos ps.length)
      simp only [completionOrder]
      exact ((ih _).cons _).trans (getD_cons_eraseIdx_perm (p :: ps) _ p hlt)

/-- The schedules reach every completion order: each arrangement of the
input is `completionOrder schedule companies` for some schedule. -/
theorem completionOrder_surjective (companies order : List String)
    (h : order.Perm companies) : ∃ schedule, completionOrder schedule companies = order := by
  induction order generalizing companies with
  | nil =>
    refine ⟨[], ?_⟩
    rw [List.nil_perm.mp h]
    rfl
  | cons x xs ih =>
    have hx : x ∈ companies := h.subset (List.mem_cons_self x xs)
    cases companies with
    | nil => simp at hx
    | cons p ps =>
      have hlt : List.indexOf x (p :: ps) < (p :: ps).length := List.indexOf_lt_length.mpr hx
      have hmod : List.indexOf x (p :: ps) % (ps.length + 1) = List.indexOf x (p :: ps) :=
        Nat.mod_eq_of_lt (by simpa using hlt)
      have hrest : xs.Perm ((p :: ps).eraseIdx (List.indexOf x (p :: ps))) := by
        rw [List.eraseIdx_indexOf_eq_erase]
        exact List.cons_perm_iff_perm_erase.mp h |>.2
      obtain ⟨ks, hks⟩ := ih _ hrest
      refine ⟨List.indexOf x (p :: ps) :: ks, ?_⟩
      simp only [completionOrder, hmod, hks]
      rw [List.getD_eq_getElem _ _ hlt, List.getElem_indexOf hlt]

theorem foldl_greenhouseCallback (axiosGet : String → Except String Unit)
    (names acc : List String) :
    names.foldl (greenhouseCallback axiosGet) acc
      = acc ++ names.filter (fun n => succeeds axiosGet (greenhouseUrl n)) := by
  induction names generalizing acc with
  | nil => simp
  | cons n ns ih =>
    rw [List.foldl_cons, ih]
    unfold greenhouseCallback succeeds
    cases h : axiosGet (greenhouseUrl n) <;> simp [List.filter_cons, h]

theorem foldl_leverCallback (axiosGet : String → Except String Unit)
    (names acc : List String) :
    names.foldl (leverCallback axiosGet) acc
      = acc ++ names.filter (fun n => succeeds axiosGet (leverUrl n)) := by
  induction names generalizing acc with
  | nil => simp
  | cons n ns ih =>
    rw [List.foldl_cons, ih]
    unfold leverCallback succeeds
    cases h : axiosGet (leverUrl n) <;> simp [List.filter_cons, h]

theorem getValidGreenhouseCompanies_eq (axiosGet : String → Except String Unit)
    (schedule : List Nat) (companies : List String) :
    getValidGreenhouseCompanies axiosGet schedule companies
      = .ok ((completionOrder schedule companies).filter
          (fun n => succeeds axiosGet (greenhouseUrl n))) := by
  simp [getValidGreenhouseCompanies, foldl_greenhouseCallback]

theorem checkCompaniesInLevel_eq (axiosGet : String → Except String Unit)
    (schedule : List Nat) (companies : List String) :
    checkCompaniesInLevel axiosGet schedule companies
      = .ok ((completionOrder schedule companies).filter
          (fun n => succeeds axiosGet (leverUrl n))) := by
  simp [checkCompaniesInLevel, foldl_leverCallback]

/-- What a validator guarantees about its result `r` for probe `ok`. -/
theorem filter_completionOrder_spec (ok : String → Bool) (schedule : List Nat)
    (companies : List String) (x : String) :
    (x ∈ (completionOrder schedule companies).filter ok ↔ x ∈ companies ∧ ok x = true) ∧
    ((completionOrder schedule companies).filter ok).count x
      = if ok x then companies.count x else 0 := by
  have hp := completionOrder_perm schedule companies
  constructor
  · rw [List.mem_filter, hp.mem_iff]
  · rw [(hp.filter ok).count_eq]
    by_cases hx : ok x = true
    · rw [if_pos hx, List.count_filter hx]
    · rw [if_neg hx]
      exact List.count_eq_zero.mpr (fun hmem => hx (List.mem_filter.mp hmem).2)

/-! ## Theorems on the validators -/

/-- C5: with the probe modelled as a function of the URL, each platform
validator always returns (a failing probe never makes it fail), and its
result holds exactly the input names whose probe succeeds, each as many times
as in the input, whatever the completion order; and for the input
`["realco","fakeco123xyz"]` where only `realco` resolves the result is
exactly `["realco"]`. -/
theorem validators_return_resolving_names (axiosGet : String → Except String Unit)
    (schedule : List Nat) (companies : List String) :
    (∃ r, getValidGreenhouseCompanies axiosGet schedule companies = .ok r ∧
      ∀ x, (x ∈ r ↔ x ∈ companies ∧ succeeds axiosGet (greenhouseUrl x) = true) ∧
        r.count x = if succeeds axiosGet (greenhouseUrl x) then companies.count x else 0) ∧
    (∃ r, checkCompaniesInLevel axiosGet schedule companies = .ok r ∧
      ∀ x, (x ∈ r ↔ x ∈ companies ∧ succeeds axiosGet (leverUrl x) = true) ∧
        r.count x = if succeeds axiosGet (leverUrl x) then companies.count x else 0) ∧
    getValidGreenhouseCompanies onlyRealco schedule ["realco", "fakeco123xyz"] = .ok ["realco"] ∧
    checkCompaniesInLevel onlyRealco schedule ["realco", "fakeco123xyz"] = .ok ["realco"] := by
  refine ⟨⟨_, getValidGreenhouseCompanies_eq axiosGet schedule companies, fun x =>
      filter_completionOrder_spec (fun n => succeeds axiosGet (greenhouseUrl n)) schedule companies x⟩,
    ⟨_, checkCompaniesInLevel_eq axiosGet schedule companies, fun x =>
      filter_completionOrder_spec (fun n => succeeds axiosGet (leverUrl n)) schedule companies x⟩,
    ?_, ?_⟩
  · rw [getValidGreenhouseCompanies_eq]
    have hp := (completionOrder_perm schedule ["realco", "fakeco123xyz"]).filter
      (fun n => succeeds onlyRealco (greenhouseUrl n))
    have hf : (["realco", "fakeco123xyz"] : List String).filter
        (fun n => succeeds onlyRealco (greenhouseUrl n)) = ["realco"] := by decide
    rw [hf] at hp
    rw [List.perm_singleton.mp hp]
  · rw [checkCompaniesInLevel_eq]
    have hp := (completionOrder_perm schedule ["realco", "fakeco123xyz"]).filter
      (fun n => succeeds onlyRealco (leverUrl n))
    have hf : (["realco", "fakeco123xyz"] : List String).filter
        (fun n => succeeds onlyRealco (leverUrl n)) = ["realco"] := by decide
    rw [hf] at hp
    rw [List.perm_singleton.mp hp]

/-! ## Lemmas on the cleaning step -/

theorem removeMarkers_skip (k : Nat) (l : List Char) :
    removeMarkers k l = removeMarkers 0 (l.drop k) := by
  induction k generalizing l with
  | zero => simp
  | succ k ih =>
    cases l with
    | nil => simp [removeMarkers]
    | cons c cs => simp [removeMarkers, ih cs]

theorem fence_prefix_of_fenceJson (l : List Char) (h : fenceJson <+: l) : fence <+: l :=
  List.IsPrefix.trans (by decide : fence <+: fenceJson) h

theorem not_fence_prefix_append (p rest : List Char) (h : ¬ fence <:+: p) :
    ¬ fence <+: p ++ '\n' :: rest := by
  intro hp
  match p, h, hp with
  | [], _, hp => simp [fence, String.toList] at hp
  | [a], _, hp => simp [fence, String.toList] at hp
  | [a, b], _, hp => simp [fence, String.toList] at hp
  | a :: b :: c :: t, h, hp =>
    apply h
    have h3 : fence <+: [a, b, c] := by
      simp only [fence, String.toList, List.cons_append, List.cons_prefix_cons] at hp ⊢
      obtain ⟨h1, h2, h3, -⟩ := hp
      exact ⟨h1, h2, h3, List.nil_prefix⟩
    exact (h3.trans (List.prefix_append [a, b, c] t)).isInfix

theorem not_fence_infix_tail (c : Char) (cs : List Char) (h : ¬ fence <:+: c :: cs) :
    ¬ fence <:+: cs :=
  fun hi => h (hi.trans (List.suffix_cons c cs).isInfix)

theorem removeMarkers_zero_cons (c : Char) (rest : List Char) :
    removeMarkers 0 (c :: rest)
      = if fenceJson <+: c :: rest then removeMarkers 7 rest
        else if fence <+: c :: rest then removeMarkers 2 rest
        else c :: removeMarkers 0 rest := by
  rw [removeMarkers]

theorem removeMarkers_newline (rest : List Char) :
    removeMarkers 0 ('\n' :: rest) = '\n' :: removeMarkers 0 rest := by
  have h1 : ¬ fenceJson <+: '\n' :: rest := by simp [fenceJson, String.toList]
  have h2 : ¬ fence <+: '\n' :: rest := by simp [fence, String.toList]
  rw [removeMarkers_zero_cons, if_neg h1, if_neg h2]

/-- Text without a fence marker passes through the replacement up to the
next newline. -/
theorem removeMarkers_append_newline (p rest : List Char) (h : ¬ fence <:+: p) :
    removeMarkers 0 (p ++ '\n' :: rest) = p ++ '\n' :: removeMarkers 0 rest := by
  induction p with
  | nil => simpa using removeMarkers_newline rest
  | cons c cs ih =>
    have h2 : ¬ fence <+: c :: (cs ++ '\n' :: rest) := not_fence_prefix_append (c :: cs) rest h
    have h1 : ¬ fenceJson <+: c :: (cs ++ '\n' :: rest) :=
      fun hj => h2 (fence_prefix_of_fenceJson _ hj)
    rw [List.cons_append, removeMarkers_zero_cons, if_neg h1, if_neg h2,
      ih (not_fence_infix_tail c cs h), List.cons_append]

theorem removeMarkers_of_no_fence (p : List Char) (h : ¬ fence <:+: p) :
    removeMarkers 0 p = p := by
  induction p with
  | nil => simp [removeMarkers]
  | cons c cs ih =>
    have h2 : ¬ fence <+: c :: cs := fun hp => h hp.isInfix
    have h1 : ¬ fenceJson <+: c :: cs := fun hj => h2 (fence_prefix_of_fenceJson _ hj)
    rw [removeMarkers_zero_cons, if_neg h1, if_neg h2, ih (not_fence_infix_tail c cs h)]

theorem jsTrimChars_concat (l : List Char) (c : Char) (hc : isJsWhitespace c = true) :
    jsTrimChars (l ++ [c]) = jsTrimChars l := by
  induction l with
  | nil => simp [jsTrimChars, List.dropWhile, hc]
  | cons a t ih =>
    by_cases ha : isJsWhitespace a = true
    · simpa [jsTrimChars, List.dropWhile, ha] using ih
    · simp only [jsTrimChars, List.cons_append]
      rw [List.dropWhile_cons_of_neg ha, List.dropWhile_cons_of_neg ha]
      exact List.rdropWhile_concat_pos _ (a :: t) c hc

/-- A match of the first alternative at the head is deleted. -/
theorem removeMarkers_match_json (x : List Char) :
    removeMarkers 0 (fenceJson ++ x) = removeMarkers 0 x := by
  have hp : fenceJson <+: fenceJson ++ x := List.prefix_append _ _
  have e : fenceJson ++ x = Char.ofNat 96 :: ("``json\n".toList ++ x) := rfl
  rw [e] at hp ⊢
  rw [removeMarkers_zero_cons, if_pos hp, removeMarkers_skip]
  rfl

/-- A match of the second alternative at the head is deleted when the first
alternative does not match there. -/
theorem removeMarkers_match_fence (x : List Char) (hj : ¬ fenceJson <+: fence ++ x) :
    removeMarkers 0 (fence ++ x) = removeMarkers 0 x := by
  have hp : fence <+: fence ++ x := List.prefix_append _ _
  have e : fence ++ x = Char.ofNat 96 :: ("``".toList ++ x) := rfl
  rw [e] at hp hj ⊢
  rw [removeMarkers_zero_cons, if_neg hj, if_pos hp, removeMarkers_skip]
  rfl

theorem eq_of_line_prefix (w t rest : List Char) (hw : '\n' ∉ w) (hn : '\n' ∉ t)
    (h : w ++ ['\n'] <+: t ++ '\n' :: rest) : t = w := by
  induction w generalizing t with
  | nil =>
    cases t with
    | nil => rfl
    | cons a t =>
      simp only [List.nil_append, List.cons_append, List.cons_prefix_cons] at h
      exact absurd h.1 (fun e => hn (by simp [← e]))
  | cons c w ih =>
    cases t with
    | nil =>
      simp only [List.nil_append, List.cons_append, List.cons_prefix_cons] at h
      exact absurd h.1.symm (fun e => hw (by simp [← e]))
    | cons a t =>
      simp only [List.cons_append, List.cons_prefix_cons] at h
      rw [h.1, ih t (fun hm => hw (List.mem_cons_of_mem _ hm))
        (fun hm => hn (List.mem_cons_of_mem _ hm)) h.2]

/-- The replacement applied to a block fenced with the tag `json`. -/
theorem removeMarkers_fenced_json (p : List Char) (h : ¬ fence <:+: p) :
    removeMarkers 0 (fenceJson ++ (p ++ '\n' :: fence)) = p ++ ['\n'] := by
  rw [removeMarkers_match_json, removeMarkers_append_newline p fence h]
  have hf : removeMarkers 0 fence = [] := by decide
  rw [hf]

/-- The replacement applied to a block fenced with another tag: only the two
markers go, the tag and its newline stay. -/
theorem removeMarkers_fenced_tag (t p : List Char) (ht : ¬ fence <:+: t) (hn : '\n' ∉ t)
    (hjson : t ≠ "json".toList) (h : ¬ fence <:+: p) :
    removeMarkers 0 (fence ++ (t ++ '\n' :: (p ++ '\n' :: fence))) = t ++ '\n' :: (p ++ ['\n']) := by
  have hnj : ¬ fenceJson <+: fence ++ (t ++ '\n' :: (p ++ '\n' :: fence)) := by
    intro hj
    apply hjson
    have hj2 : "json".toList ++ ['\n'] <+: t ++ '\n' :: (p ++ '\n' :: fence) := by
      have e : fenceJson = fence ++ ("json".toList ++ ['\n']) := by decide
      rw [e] at hj
      exact (List.prefix_append_right_inj fence).mp hj
    exact eq_of_line_prefix _ t _ (by decide) hn hj2
  rw [removeMarkers_match_fence _ hnj, removeMarkers_append_newline t _ ht,
    removeMarkers_append_newline p fence h]
  have hf : removeMarkers 0 fence = [] := by decide
  rw [hf]

theorem cleanText_fenced_json_aux (payload : String) (h : ¬ fence <:+: payload.toList) :
    cleanText (wrapFenced "json" payload) = cleanText payload := by
  have e : (wrapFenced "json" payload).toList
      = fenceJson ++ (payload.toList ++ '\n' :: fence) := by
    simp [wrapFenced, String.toList, fenceJson, fence]
  unfold cleanText
  rw [e, removeMarkers_fenced_json _ h, removeMarkers_of_no_fence _ h,
    jsTrimChars_concat _ _ (by decide)]

/-! ## Theorems on the cleaning step -/

/-- C8: for a payload without a triple backtick, cleaning the payload wrapped
in a `json` fenced block gives the same text as cleaning the payload itself,
so the second candidate fetcher parses the same result for both. -/
theorem cleanText_fenced_json (payload : String) (h : ¬ fence <:+: payload.toList) :
    cleanText ("```json\n" ++ payload ++ "\n```") = cleanText payload ∧
    ∀ w : World,
      fetchCompaniesUsingGoogleGenAI
          { w with generateContent := fun _ => .ok (some ("```json\n" ++ payload ++ "\n```")) }
        = fetchCompaniesUsingGoogleGenAI { w with generateContent := fun _ => .ok (some payload) } := by
  have hw : "```json\n" ++ payload ++ "\n```" = wrapFenced "json" payload := by
    apply String.ext
    simp [wrapFenced]
  have hc : cleanText ("```json\n" ++ payload ++ "\n```") = cleanText payload := by
    rw [hw]
    exact cleanText_fenced_json_aux payload h
  refine ⟨hc, fun w => ?_⟩
  simp only [fetchCompaniesUsingGoogleGenAI, hc]

theorem cleanText_fenced_json_witness :
    ¬ fence <:+: "[1, 2]".toList ∧
    cleanText ("```json\n" ++ "[1, 2]" ++ "\n```") = cleanText "[1, 2]" :=
  ⟨by decide, (cleanText_fenced_json "[1, 2]" (by decide)).1⟩

/-- C10 (as stated, refuted): with the tag `js` the tag line survives the
cleaning step, so the wrapped and the unwrapped payload clean to different
texts. -/
theorem cleanText_fenced_js_differs :
    ¬ fence <:+: "[]".toList ∧
    cleanText (wrapFenced "js" "[]") = "js\n[]" ∧ cleanText "[]" = "[]" ∧
    cleanText (wrapFenced "js" "[]") ≠ cleanText "[]" := by
  decide

/-- C10 (amended): for a tag without a triple backtick or a newline and a
payload without a triple backtick, the cleaning step removes the two fence
markers; with the tag `json` the result is the cleaned payload, with any
other tag it is the cleaned text `tag ++ "\n" ++ payload`: the tag line is
kept. -/
theorem cleanText_fenced_tag (tag payload : String) (ht : ¬ fence <:+: tag.toList)
    (hn : '\n' ∉ tag.toList) (h : ¬ fence <:+: payload.toList) :
    cleanText (wrapFenced tag payload)
      = if tag = "json" then cleanText payload else cleanText (tag ++ "\n" ++ payload) := by
  by_cases hj : tag = "json"
  · subst hj
    rw [if_pos rfl]
    exact (cleanText_fenced_json_aux payload h)
  · rw [if_neg hj]
    have hj2 : tag.toList ≠ "json".toList := fun e => hj (String.ext e)
    have e1 : (wrapFenced tag payload).toList
        = fence ++ (tag.toList ++ '\n' :: (payload.toList ++ '\n' :: fence)) := by
      simp [wrapFenced, String.toList, fence]
    have e2 : (tag ++ "\n" ++ payload).toList = tag.toList ++ '\n' :: payload.toList := by
      simp [String.toList]
    unfold cleanText
    rw [e1, e2, removeMarkers_fenced_tag _ _ ht hn hj2 h, removeMarkers_append_newline _ _ ht,
      removeMarkers_of_no_fence _ h]
    have e3 : tag.toList ++ '\n' :: (payload.toList ++ ['\n'])
        = (tag.toList ++ '\n' :: payload.toList) ++ ['\n'] := by simp
    rw [e3, jsTrimChars_concat _ _ (by decide)]

theorem cleanText_fenced_tag_witness :
    ¬ fence <:+: "js".toList ∧ '\n' ∉ "js".toList ∧ ¬ fence <:+: "[]".toList ∧
    cleanText (wrapFenced "js" "[]")
      = if "js" = "json" then cleanText "[]" else cleanText ("js" ++ "\n" ++ "[]") :=
  ⟨by decide, by decide, by decide,
    cleanText_fenced_tag "js" "[]" (by decide) (by decide) (by decide)⟩

/-! ## Startup -/

/-- What the startup check decides on: it fails exactly when
`OLLAMA_API_KEY` is unset or blank, whatever `GOOGLE_API_KEY` is. -/
theorem startupFails_iff (env : String → Option String) :
    startupFails env = true ↔
      (env "OLLAMA_API_KEY" = none ∨ ∃ v, env "OLLAMA_API_KEY" = some v ∧ jsTrim v = "") := by
  unfold startupFails startup
  cases h : env "OLLAMA_API_KEY" with
  | none => simp
  | some v =>
    by_cases hv : jsTrim v = "" <;> simp [hv]

/-- C9 (the code at the failing input): with `OLLAMA_API_KEY` set and
`GOOGLE_API_KEY` missing, module evaluation does not throw and the scheduler
is registered. -/
theorem startup_without_google_key :
    envOnlyOllama "GOOGLE_API_KEY" = none ∧ startupFails envOnlyOllama = false ∧
    ¬ (startupFails envOnlyOllama = true ↔
        (envOnlyOllama "OLLAMA_API_KEY" = none ∨ envOnlyOllama "GOOGLE_API_KEY" = none)) := by
  decide

/-! ## Lemmas on the cycle -/

theorem main_fst (st : Stages) (s : State) : (main st s).1 = .ok () := by
  unfold main
  rcases h : mainBody st s with ⟨r, s1⟩
  cases r <;> rfl

theorem main_of_body_error (st : Stages) (s s1 : State) (e : String)
    (h : mainBody st s = (.error e, s1)) :
    main st s = (.ok (), consoleError ["Error inside main file", e] s1) := by
  unfold main
  rw [h]

theorem main_of_body_ok (st : Stages) (s s1 : State) (h : mainBody st s = (.ok (), s1)) :
    main st s = (.ok (), s1) := by
  unfold main
  rw [h]

theorem mainBody_google_error (st : Stages) (s s1 : State) (e : String)
    (h : st.fetchCompaniesUsingGoogleGenAI s = (.error e, s1)) :
    mainBody st s = (.error e, s1) := by
  unfold mainBody
  rw [h]

theorem mainBody_ollama_error (st : Stages) (s s1 s2 : State) (g : List Company) (e : String)
    (hg : st.fetchCompaniesUsingGoogleGenAI s = (.ok g, s1))
    (h : st.fetchCompaniesUsingOllama s1 = (.error e, s2)) :
    mainBody st s = (.error e, s2) := by
  unfold mainBody
  rw [hg]
  simp only
  rw [h]

/-! ## Theorems on the cycle -/

/-- C7: whatever the stages do (each may throw at any point), `main`
completes normally, and so does the scheduler callback; when the `try` block
throws, in particular when either generative-backend call throws, `main` ends
by writing one error line for that failure. -/
theorem main_never_throws (st : Stages) (s : State) :
    (main st s).1 = .ok () ∧ (tick st s).1 = .ok () ∧
    (∀ e s1, mainBody st s = (.error e, s1) →
      (main st s).2.logs = s1.logs ++ [LogEntry.error (" ".intercalate ["Error inside main file", e])]) ∧
    (∀ e s1, st.fetchCompaniesUsingGoogleGenAI s = (.error e, s1) →
      (main st s).2.logs = s1.logs ++ [LogEntry.error (" ".intercalate ["Error inside main file", e])]) ∧
    (∀ g e s1 s2, st.fetchCompaniesUsingGoogleGenAI s = (.ok g, s1) →
      st.fetchCompaniesUsingOllama s1 = (.error e, s2) →
      (main st s).2.logs = s2.logs ++ [LogEntry.error (" ".intercalate ["Error inside main file", e])]) := by
  refine ⟨main_fst st s, ?_, ?_, ?_, ?_⟩
  · unfold tick
    simp only
    rcases h : main st _ with ⟨r, s1⟩
    have h1 := main_fst st
      { consoleLog ["fetching times ", toString s.count, " total fetched count",
          toString s.totalFetchedCount] s with
        count := (consoleLog ["fetching times ", toString s.count, " total fetched count",
          toString s.totalFetchedCount] s).count + 1 }
    rw [h] at h1
    simp only at h1
    subst h1
    rfl
  · intro e s1 h
    rw [main_of_body_error st s s1 e h]
    rfl
  · intro e s1 h
    rw [main_of_body_error st s s1 e (mainBody_google_error st s s1 e h)]
    rfl
  · intro g e s1 s2 hg h
    rw [main_of_body_error st s s2 e (mainBody_ollama_error st s s1 s2 g e hg h)]
    rfl

theorem main_never_throws_witness :
    (main (stagesOf backendDownWorld) freshState).1 = .ok () ∧
    (main (stagesOf backendDownWorld) freshState).2.logs
      = [LogEntry.error "Error inside main file fetch failed"] :=
  ⟨(main_never_throws (stagesOf backendDownWorld) freshState).1,
    (main_never_throws (stagesOf backendDownWorld) freshState).2.2.2.1
      "fetch failed" freshState rfl⟩

/-! ## Persistence -/

theorem foldl_setFromArray_spec (xs acc : List String) (hacc : acc.Nodup) :
    (xs.foldl (fun acc x => if x ∈ acc then acc else acc ++ [x]) acc).Nodup ∧
    ∀ x, x ∈ xs.foldl (fun acc x => if x ∈ acc then acc else acc ++ [x]) acc ↔ x ∈ acc ∨ x ∈ xs := by
  induction xs generalizing acc with
  | nil => simp [hacc]
  | cons a as ih =>
    rw [List.foldl_cons]
    by_cases ha : a ∈ acc
    · rw [if_pos ha]
      refine ⟨(ih acc hacc).1, fun x => ?_⟩
      rw [(ih acc hacc).2 x, List.mem_cons]
      constructor
      · rintro (h | h)
        · exact Or.inl h
        · exact Or.inr (Or.inr h)
      · rintro (h | h | h)
        · exact Or.inl h
        · exact Or.inl (h ▸ ha)
        · exact Or.inr h
    · rw [if_neg ha]
      have hn : (acc ++ [a]).Nodup := by
        rw [List.nodup_append]
        refine ⟨hacc, List.nodup_singleton a, ?_⟩
        intro x hx hx2
        rw [List.mem_singleton] at hx2
        exact ha (hx2 ▸ hx)
      refine ⟨(ih _ hn).1, fun x => ?_⟩
      rw [(ih _ hn).2 x, List.mem_append, List.mem_singleton, List.mem_cons]
      tauto

theorem setFromArray_spec (xs : List String) :
    (setFromArray xs).Nodup ∧ ∀ x, x ∈ setFromArray xs ↔ x ∈ xs := by
  have h := foldl_setFromArray_spec xs [] List.nodup_nil
  exact ⟨h.1, fun x => by rw [setFromArray, h.2 x]; simp⟩

/-- C6 (as stated, refuted): in a cycle where `acme` resolves on both
platforms, `greenhouse.txt` and `lever.txt` are written with `acme`, while
the buckets `onlyGreenhouse` and `onlyLever` of that cycle are empty. -/
theorem main_files_are_not_the_only_buckets :
    getValidGreenhouseCompanies acmeWorld.axiosGet acmeWorld.greenhouseSchedule ["acme"]
      = .ok ["acme"] ∧
    checkCompaniesInLevel acmeWorld.axiosGet acmeWorld.leverSchedule ["acme"] = .ok ["acme"] ∧
    categorizeCompanies ["acme"] ["acme"]
      = { both := ["acme"], onlyGreenhouse := [], onlyLever := [] } ∧
    (main (stagesOf acmeWorld) freshState).2.files "greenhouse.txt" = some "acme" ∧
    (main (stagesOf acmeWorld) freshState).2.files "lever.txt" = some "acme" ∧
    (main (stagesOf acmeWorld) freshState).2.files "both.txt" = some "acme" ∧
    (main (stagesOf acmeWorld) freshState).2.files "greenhouse.txt"
      ≠ some (joinLines (categorizeCompanies ["acme"] ["acme"]).onlyGreenhouse) ∧
    (main (stagesOf acmeWorld) freshState).2.files "lever.txt"
      ≠ some (joinLines (categorizeCompanies ["acme"] ["acme"]).onlyLever) := by
  refine ⟨rfl, rfl, by decide, by decide, by decide, by decide, by decide, by decide⟩

/-- C6 (amended): in a cycle whose fetchers and writes succeed, with `vg` and
`vl` the outputs of the two validators, `greenhouse.txt` is written with the
names of `vg` without repetition (every name validated on the first platform,
those of the `both` bucket included), `lever.txt` likewise with `vl`, and
`both.txt` with the `both` bucket of `categorizeCompanies vg vl`, each joined
by newlines. -/
theorem main_writes_files (w : World) (s : State) (g o : List Company)
    (hg : fetchCompaniesUsingGoogleGenAI w = .ok g) (ho : fetchCompaniesUsingOllama w = .ok o)
    (hw : ∀ path data, w.fsWrite path data = .ok ()) :
    ∃ vg vl,
      getValidGreenhouseCompanies w.axiosGet w.greenhouseSchedule
        ((g ++ o).map (fun company => company.company_name)) = .ok vg ∧
      checkCompaniesInLevel w.axiosGet w.leverSchedule
        ((g ++ o).map (fun company => company.company_name)) = .ok vl ∧
      (main (stagesOf w) s).2.files "greenhouse.txt" = some (joinLines (setFromArray vg)) ∧
      (main (stagesOf w) s).2.files "lever.txt" = some (joinLines (setFromArray vl)) ∧
      (main (stagesOf w) s).2.files "both.txt"
        = some (joinLines (categorizeCompanies vg vl).both) ∧
      (setFromArray vg).Nodup ∧ (setFromArray vl).Nodup ∧
      (∀ x, x ∈ setFromArray vg ↔
        x ∈ (categorizeCompanies vg vl).both ∨ x ∈ (categorizeCompanies vg vl).onlyGreenhouse) ∧
      (∀ x, x ∈ setFromArray vl ↔
        x ∈ (categorizeCompanies vg vl).both ∨ x ∈ (categorizeCompanies vg vl).onlyLever) := by
  refine ⟨_, _, rfl, rfl, ?_, ?_, ?_, (setFromArray_spec _).1, (setFromArray_spec _).1, ?_, ?_⟩
  · simp [main, mainBody, stagesOf, liftExcept, hg, ho, writeFileSync, hw,
      getValidGreenhouseCompanies, checkCompaniesInLevel]
  · simp [main, mainBody, stagesOf, liftExcept, hg, ho, writeFileSync, hw,
      getValidGreenhouseCompanies, checkCompaniesInLevel]
  · simp [main, mainBody, stagesOf, liftExcept, hg, ho, writeFileSync, hw,
      getValidGreenhouseCompanies, checkCompaniesInLevel]
  · intro x
    rw [(setFromArray_spec _).2 x, mem_both_iff, mem_onlyGreenhouse_iff]
    tauto
  · intro x
    rw [(setFromArray_spec _).2 x, mem_both_iff, mem_onlyLever_iff]
    tauto

theorem main_writes_files_witness :
    fetchCompaniesUsingGoogleGenAI acmeWorld = .ok [acme] ∧
    fetchCompaniesUsingOllama acmeWorld = .ok [] ∧
    ∃ vg vl,
      getValidGreenhouseCompanies acmeWorld.axiosGet acmeWorld.greenhouseSchedule
        (([acme] ++ ([] : List Company)).map
          (fun company => company.company_name)) = .ok vg ∧
      checkCompaniesInLevel acmeWorld.axiosGet acmeWorld.leverSchedule
        (([acme] ++ ([] : List Company)).map
          (fun company => company.company_name)) = .ok vl ∧
      (main (stagesOf acmeWorld) freshState).2.files "greenhouse.txt"
        = some (joinLines (setFromArray vg)) ∧
      (main (stagesOf acmeWorld) freshState).2.files "lever.txt"
        = some (joinLines (setFromArray vl)) ∧
      (main (stagesOf acmeWorld) freshState).2.files "both.txt"
        = some (joinLines (categorizeCompanies vg vl).both) ∧
      (setFromArray vg).Nodup ∧ (setFromArray vl).Nodup ∧
      (∀ x, x ∈ setFromArray vg ↔
        x ∈ (categorizeCompanies vg vl).both ∨ x ∈ (categorizeCompanies vg vl).onlyGreenhouse) ∧
      (∀ x, x ∈ setFromArray vl ↔
        x ∈ (categorizeCompanies vg vl).both ∨ x ∈ (categorizeCompanies vg vl).onlyLever) :=
  ⟨rfl, rfl, main_writes_files acmeWorld freshState _ _ rfl rfl (fun _ _ => rfl)⟩

end Index
